import Mathlib

/-!
Shallow embedding of the type-shape derivation and printer engine of
`graphql-typescript-definitions` (the final printer variant in
`src/packages/graphql-typescript-definitions/src/print/document/utilities.ts`),
together with the chained `ObjectStack` naming resolver of the `print2`
printer (`src/unnamed/part_002`).

JavaScript strings are modelled as Lean `String`s; the JS string operations
the source uses (`startsWith`, the anchored regex replaces, `ucFirst` from
change-case) are modelled over the underlying character lists.  Mutable
state (`OperationContext.exportedTypes`, `FileContext.importedTypes`, the
per-stack `seenFields` set) is threaded explicitly; JS `Set` iteration
order is insertion order, modelled as a duplicate-free list extended at the
tail.  Babel TS AST values are modelled by the inductive `TSType` /
`TSProp` / `TSInterfaceDecl` below, keeping exactly the structure the
printer produces.
-/

namespace GraphQLTsDefs

/-- Model of the JS helper `ucFirst` from change-case: upper-case the first
character and keep the rest unchanged. -/
def ucFirst (s : String) : String :=
  match s.data with
  | [] => ""
  | c :: cs => ⟨c.toUpper :: cs⟩

/-- Model of JS `String.prototype.startsWith`. -/
def jsStartsWith (s pat : String) : Bool :=
  pat.data.isPrefixOf s.data

/-- Model of JS `String.prototype.endsWith`, used to express the anchored
regex replaces `replace(/Data$/, ...)` and `replace(/\.ts$/, ...)`. -/
def jsEndsWith (s pat : String) : Bool :=
  pat.data.isSuffixOf s.data

/-- Dropping the last `n` characters of a string (the effect of an anchored
regex replace once the suffix is known to match). -/
def jsDropRight (s : String) (n : Nat) : String :=
  ⟨s.data.take (s.data.length - n)⟩

/-- Kinds of GraphQL schema types, mirroring the graphql-js type predicates
the source dispatches on (`isScalarType`, `isEnumType`, `isListType`,
`isObjectType`, `isInterfaceType`, `isUnionType`, `isInputObjectType`,
`isNonNullType`).  Named types carry their schema name. -/
inductive GQLType where
  | scalar (name : String)
  | enum (name : String)
  | object (name : String)
  | interface (name : String)
  | union (name : String)
  | inputObject (name : String)
  | list (ofType : GQLType)
  | nonNull (ofType : GQLType)
deriving DecidableEq, Repr

def isScalarType : GQLType → Bool
  | .scalar _ => true
  | _ => false

def isEnumType : GQLType → Bool
  | .enum _ => true
  | _ => false

def isObjectType : GQLType → Bool
  | .object _ => true
  | _ => false

def isInterfaceType : GQLType → Bool
  | .interface _ => true
  | _ => false

def isUnionType : GQLType → Bool
  | .union _ => true
  | _ => false

def isInputObjectType : GQLType → Bool
  | .inputObject _ => true
  | _ => false

def isListType : GQLType → Bool
  | .list _ => true
  | _ => false

def isNonNullType : GQLType → Bool
  | .nonNull _ => true
  | _ => false

/-- The unwrapping step `isNonNullType(t) ? t.ofType : t` used by both type
printers. -/
def unwrapOnce : GQLType → GQLType
  | .nonNull t => t
  | g => g

/-- Kind of a `GraphQLCompositeType` (object, interface or union). -/
inductive CompositeKind where
  | object
  | interface
  | union
deriving DecidableEq, Repr

/-- A `GraphQLCompositeType` as the printer consumes it: a name plus its
kind.  Within one compiled schema those type objects are canonical, so the
JS identity comparisons on them coincide with this structural equality. -/
structure CompositeType where
  name : String
  kind : CompositeKind
deriving DecidableEq, Repr

/-- The compiled schema, reduced to the single accessor the printer uses:
`schema.getPossibleTypes` for an abstract type, queried here by type name. -/
structure Schema where
  possibleTypes : String → List CompositeType

mutual
/-- Model of `Field` from graphql-tool-utilities/ast, as the printer
consumes it: schema field name, response name (alias or field name), the
resolved schema type, the conditional flag, and the optional nested
selections (`fields`) and inline fragments, absent ones modelled as `[]`. -/
inductive Field where
  | mk (fieldName : String) (responseName : String) (type : GQLType)
      (isConditional : Bool) (fields : List Field)
      (inlineFragments : List InlineFragment)

/-- Model of `InlineFragment`: type condition, the concrete types it
covers (`possibleTypes`), and its selection set. -/
inductive InlineFragment where
  | mk (typeCondition : CompositeType) (possibleTypes : List CompositeType)
      (fields : List Field)
end

def Field.fieldName : Field → String
  | .mk n _ _ _ _ _ => n

def Field.responseName : Field → String
  | .mk _ n _ _ _ _ => n

def Field.type : Field → GQLType
  | .mk _ _ t _ _ _ => t

def Field.isConditional : Field → Bool
  | .mk _ _ _ c _ _ => c

def Field.fields : Field → List Field
  | .mk _ _ _ _ fs _ => fs

def Field.inlineFragments : Field → List InlineFragment
  | .mk _ _ _ _ _ frs => frs

def InlineFragment.typeCondition : InlineFragment → CompositeType
  | .mk t _ _ => t

def InlineFragment.possibleTypes : InlineFragment → List CompositeType
  | .mk _ p _ => p

def InlineFragment.fields : InlineFragment → List Field
  | .mk _ _ fs => fs

theorem list_sizeOf_pos {α : Type} [SizeOf α] (l : List α) : 0 < sizeOf l := by
  cases l <;> simp_arith

theorem Field.sizeOf_fields_lt (f : Field) : sizeOf f.fields < sizeOf f := by
  cases f with
  | mk a b c d fs frs => simp [Field.fields]; omega

theorem Field.sizeOf_fields_succ_lt (f : Field) : sizeOf f.fields + 1 < sizeOf f := by
  cases f with
  | mk a b c d fs frs =>
    have := list_sizeOf_pos frs
    simp only [Field.fields, Field.mk.sizeOf_spec]
    omega

theorem Field.sizeOf_inlineFragments_lt (f : Field) :
    sizeOf f.inlineFragments < sizeOf f := by
  cases f with
  | mk a b c d fs frs => simp [Field.inlineFragments]

theorem InlineFragment.sizeOf_selection_lt (fr : InlineFragment) :
    sizeOf fr.fields < sizeOf fr := by
  cases fr with
  | mk t p fs => simp [InlineFragment.fields]

theorem InlineFragment.sizeOf_selection_succ_lt (fr : InlineFragment) :
    sizeOf fr.fields + 1 < sizeOf fr := by
  cases fr with
  | mk t p fs =>
    have := list_sizeOf_pos p
    simp only [InlineFragment.fields, InlineFragment.mk.sizeOf_spec]
    omega

theorem sizeOf_unwrapOnce_le (g : GQLType) : sizeOf (unwrapOnce g) ≤ sizeOf g := by
  cases g <;> simp [unwrapOnce]

/-- Babel TS type AST nodes, restricted to the constructors the printer
produces. -/
inductive TSType where
  | tsString
  | tsNumber
  | tsBoolean
  | tsAny
  | tsNull
  | tsLiteral (value : String)
  | tsRef (name : String)
  | tsQualRef (qualifier : String) (name : String)
  | tsUnion (types : List TSType)
  | tsArray (elementType : TSType)
  | tsParen (elementType : TSType)
deriving Repr

/-- Babel's `t.isTSUnionType` shape test. -/
def isTSUnionType : TSType → Bool
  | .tsUnion _ => true
  | _ => false

/-- A `t.tsPropertySignature` with its `optional` flag. -/
structure TSProp where
  name : String
  optional : Bool
  type : TSType
deriving Repr

/-- A `t.tsInterfaceDeclaration`: identifier and the list of property
signatures of its body. -/
structure TSInterfaceDecl where
  name : String
  body : List TSProp
deriving Repr

/-- Modelled from the spec: the `scalarTypeMap` imported from
`../utilities` is not among the sources; section 4.1/8 of the spec fix it as
the five built-in scalars `String`/`ID` to `string`, `Int`/`Float` to
`number`, `Boolean` to `boolean`, every other scalar being imported by
name. -/
def scalarTypeMap : String → Option TSType := fun name =>
  if name = "String" then some .tsString
  else if name = "ID" then some .tsString
  else if name = "Int" then some .tsNumber
  else if name = "Float" then some .tsNumber
  else if name = "Boolean" then some .tsBoolean
  else none

/-- Insertion into a JS `Set` serialized as an insertion-ordered
duplicate-free list: append the element unless already present. -/
def addImport (l : List String) (t : String) : List String :=
  if t ∈ l then l else l ++ [t]

/-- The mutable accumulators of one printing pass: the
`OperationContext.exportedTypes` array (namespace members, in push order)
and the `FileContext.importedTypes` set (insertion order). -/
structure PrintState where
  exported : List TSInterfaceDecl
  imported : List String
deriving Repr

def PrintState.importType (st : PrintState) (n : String) : PrintState :=
  { st with imported := addImport st.imported n }

/-- Read-only context of one traversal: the `addTypename` option, the
`partial` flag, the enclosing `OperationContext.typeName`, and the schema. -/
structure Ctx where
  addTypename : Bool
  partialFlag : Bool
  typeName : String
  schema : Schema

/-- Model of `OperationContext.export`: push the declaration and return the
qualified type reference `TypeName.DeclName`. -/
def exportDecl (ctx : Ctx) (d : TSInterfaceDecl) (st : PrintState) :
    TSType × PrintState :=
  (.tsQualRef ctx.typeName d.name, { st with exported := st.exported ++ [d] })

/-- The `ObjectStack` local to the final printer variant: the chain of
parent fields (their response names give `name`) and the mutable
`seenFields` set, threaded as a value here. -/
structure ObjectStack where
  parentFields : List Field
  seen : List String

def ObjectStack.name (s : ObjectStack) : String :=
  String.join (s.parentFields.map fun f => ucFirst f.responseName)

/-- Push an ordinary frame: append the field, fresh `seenFields`. -/
def ObjectStack.nested (s : ObjectStack) (f : Field) (_t : CompositeType) :
    ObjectStack :=
  ⟨s.parentFields ++ [f], []⟩

/-- Push a fragment frame: same parent fields, fresh `seenFields`. -/
def ObjectStack.fragment (s : ObjectStack) (_t : CompositeType) : ObjectStack :=
  ⟨s.parentFields, []⟩

/-- The `uniqueFields` filter of `tsInterfaceBodyForObjectField`: walk the
selection in order, skip a field whose `responseName` is in the seen set,
otherwise keep it and record its name.  Returns the kept fields and the
final seen set. -/
def dedupFields : List Field → List String → List Field × List String
  | [], seen => ([], seen)
  | f :: fs, seen =>
    if f.responseName ∈ seen then dedupFields fs seen
    else
      let r := dedupFields fs (f.responseName :: seen)
      (f :: r.1, r.2)

theorem dedupFields_sublist (fs : List Field) (seen : List String) :
    (dedupFields fs seen).1.Sublist fs := by
  induction fs generalizing seen with
  | nil => simp [dedupFields]
  | cons f fs ih =>
    rw [dedupFields]
    split
    · exact (ih seen).cons f
    · exact (ih (f.responseName :: seen)).cons₂ f

theorem dedupFields_fst_sizeOf_le (fs : List Field) (seen : List String) :
    sizeOf (dedupFields fs seen).1 ≤ sizeOf fs := by
  induction fs generalizing seen with
  | nil => simp [dedupFields]
  | cons f fs ih =>
    rw [dedupFields]
    split
    · have h := ih seen
      have h2 : sizeOf fs ≤ sizeOf (f :: fs) := by
        simp only [List.cons.sizeOf_spec]
        omega
      omega
    · have h := ih (f.responseName :: seen)
      show sizeOf (f :: (dedupFields fs (f.responseName :: seen)).1) ≤ sizeOf (f :: fs)
      simp only [List.cons.sizeOf_spec]
      omega

/-- Either parent shape handed to the body printer: one composite type, or
the array of missing possible types used for the synthesized Other
branch. -/
inductive ParentTypes where
  | single (type : CompositeType)
  | multiple (types : List CompositeType)

/-- Model of `tsTypenameForGraphQLType` combined with the `__typename`
branch of `tsPropertyForField` (the branch is non-recursive, so it is split
out; `tsPropertyForField` below delegates to it). -/
def tsTypenameProperty (responseName : String) (isConditional : Bool)
    (fieldType : GQLType) (parent : ParentTypes) (ctx : Ctx)
    (isRequiredTypename : Bool) : TSProp :=
  let optional :=
    !isRequiredTypename &&
      (ctx.partialFlag || isConditional || !(isNonNullType fieldType))
  let typename : TSType :=
    match parent with
    | .multiple ts => .tsUnion (ts.map fun t => .tsLiteral t.name)
    | .single t => .tsLiteral t.name
  { name := responseName, optional := optional,
    type := if optional then .tsUnion [typename, .tsNull] else typename }

/-- Test `isInterfaceType(graphQLType) || isUnionType(graphQLType)` on a
composite type. -/
def isAbstractKind : CompositeKind → Bool
  | .interface => true
  | .union => true
  | .object => false

mutual

/-- The `uniqueFields.map((field) => tsPropertyForField ...)` step, with the
print state threaded left to right in source order. -/
def printBodyFields : List Field → ParentTypes → ObjectStack → Ctx → Bool →
    PrintState → List TSProp × PrintState
  | [], _, _, _, _, st => ([], st)
  | f :: fs, parent, stack, ctx, req, st =>
    let p := tsPropertyForField f parent stack ctx req st
    let ps := printBodyFields fs parent stack ctx req p.2
    (p.1 :: ps.1, ps.2)
termination_by fs _ _ _ _ _ => (sizeOf fs, 0)
decreasing_by
  all_goals simp_wf
  all_goals apply Prod.Lex.left
  all_goals omega

/-- Model of `tsInterfaceBodyForObjectField`: deduplicate the selection
against the stack's seen set, then (for `addTypename` or a required
typename) inject a synthetic `__typename` ahead of the user fields unless
one was already seen. -/
def tsInterfaceBodyForObjectField (fields : List Field) (parent : ParentTypes)
    (stack : ObjectStack) (ctx : Ctx) (requiresTypename : Bool)
    (st : PrintState) : List TSProp × PrintState :=
  let dd := dedupFields fields stack.seen
  let typename : Option TSProp :=
    if (ctx.addTypename || requiresTypename) && !(dd.2.contains "__typename") then
      some (tsTypenameProperty "__typename" false (.nonNull (.scalar "String"))
        parent ctx requiresTypename)
    else none
  let body := printBodyFields dd.1 parent stack ctx requiresTypename st
  (match typename with
   | some tp => tp :: body.1
   | none => body.1, body.2)
termination_by (sizeOf fields + 1, 0)
decreasing_by
  apply Prod.Lex.left
  have h := dedupFields_fst_sizeOf_le fields stack.seen
  omega

/-- Model of `tsPropertyForField`. -/
def tsPropertyForField (f : Field) (parent : ParentTypes) (stack : ObjectStack)
    (ctx : Ctx) (isRequiredTypename : Bool) (st : PrintState) :
    TSProp × PrintState :=
  if f.fieldName = "__typename" then
    (tsTypenameProperty f.responseName f.isConditional f.type parent ctx
      isRequiredTypename, st)
  else
    let ty := tsTypeForGraphQLType f.type f stack ctx st
    ({ name := f.responseName,
       optional := ctx.partialFlag || f.isConditional || !(isNonNullType f.type),
       type := ty.1 }, ty.2)
termination_by (sizeOf f, 2 * sizeOf f.type + 2)
decreasing_by
  apply Prod.Lex.right
  omega

/-- Model of `tsTypeForGraphQLType`: nullability handling; the dispatch on
the unwrapped type is split into `tsTypeForUnwrapped` below (a cosmetic
split of one source function). -/
def tsTypeForGraphQLType (g : GQLType) (f : Field) (stack : ObjectStack)
    (ctx : Ctx) (st : PrintState) : TSType × PrintState :=
  let forceNullable :=
    ctx.partialFlag || (f.isConditional && decide (g = f.type))
  let isNonNull := !forceNullable && isNonNullType g
  let core := tsTypeForUnwrapped (unwrapOnce g) f stack ctx st
  (if isNonNull then core.1 else .tsUnion [core.1, .tsNull], core.2)
termination_by (sizeOf f, 2 * sizeOf g + 1)
decreasing_by
  apply Prod.Lex.right
  have h := sizeOf_unwrapOnce_le g
  omega

/-- The kind dispatch of `tsTypeForGraphQLType` on the unwrapped type: the
five handled categories, with every other kind falling through to `any`. -/
def tsTypeForUnwrapped (u : GQLType) (f : Field) (stack : ObjectStack)
    (ctx : Ctx) (st : PrintState) : TSType × PrintState :=
  match u with
  | .scalar name =>
    match scalarTypeMap name with
    | some t => (t, st)
    | none => (.tsRef name, st.importType name)
  | .enum name => (.tsRef name, st.importType name)
  | .list ofType =>
    let arrayType := tsTypeForGraphQLType ofType f stack ctx st
    (.tsArray (if isTSUnionType arrayType.1 then .tsParen arrayType.1
               else arrayType.1), arrayType.2)
  | .object name =>
    tsTypeForObjectField f ⟨name, .object⟩ (stack.nested f ⟨name, .object⟩) ctx st
  | .interface name =>
    tsTypeForObjectField f ⟨name, .interface⟩
      (stack.nested f ⟨name, .interface⟩) ctx st
  | .union name =>
    tsTypeForObjectField f ⟨name, .union⟩ (stack.nested f ⟨name, .union⟩) ctx st
  | .inputObject _ => (.tsAny, st)
  | .nonNull _ => (.tsAny, st)
termination_by (sizeOf f, 2 * sizeOf u)
decreasing_by
  all_goals simp_wf
  all_goals apply Prod.Lex.right
  all_goals omega

/-- Model of `tsTypeForObjectField`: without inline fragments, one named
interface; with inline fragments, the per-fragment types in declaration
order plus, when the covered possible types do not exhaust the schema's,
one synthesized Other interface placed last. -/
def tsTypeForObjectField (f : Field) (g : CompositeType) (stack : ObjectStack)
    (ctx : Ctx) (st : PrintState) : TSType × PrintState :=
  if f.inlineFragments.isEmpty then
    let body := tsInterfaceBodyForObjectField f.fields (.single g) stack ctx
      false st
    exportDecl ctx ⟨stack.name, body.1⟩ body.2
  else
    let fragRes := printFragTypes f.inlineFragments stack ctx st
    let covered := f.inlineFragments.foldl (fun acc fr => acc ++ fr.possibleTypes) []
    let missing :=
      if isAbstractKind g.kind then
        (ctx.schema.possibleTypes g.name).filter fun pt => !(covered.contains pt)
      else []
    if missing.isEmpty then
      (.tsUnion fragRes.1, fragRes.2)
    else
      let otherBody := tsInterfaceBodyForObjectField f.fields (.multiple missing)
        stack ctx ctx.partialFlag fragRes.2
      let otherRes := exportDecl ctx ⟨stack.name ++ "Other", otherBody.1⟩ otherBody.2
      (.tsUnion (fragRes.1 ++ [otherRes.1]), otherRes.2)
termination_by (sizeOf f, 0)
decreasing_by
  all_goals apply Prod.Lex.left
  all_goals
    first
    | exact Field.sizeOf_fields_succ_lt f
    | exact Field.sizeOf_inlineFragments_lt f

/-- The `inlineFragments.map((inlineFragment) => tsTypeForInlineFragment
(..., stack.fragment(inlineFragment.typeCondition), ...))` step, state
threaded in declaration order. -/
def printFragTypes : List InlineFragment → ObjectStack → Ctx → PrintState →
    List TSType × PrintState
  | [], _, _, st => ([], st)
  | fr :: frs, stack, ctx, st =>
    let t := tsTypeForInlineFragment fr (stack.fragment fr.typeCondition) ctx st
    let ts := printFragTypes frs stack ctx t.2
    (t.1 :: ts.1, ts.2)
termination_by frs _ _ _ => (sizeOf frs, 3)
decreasing_by
  all_goals apply Prod.Lex.left
  all_goals (simp only [List.cons.sizeOf_spec]; omega)

/-- Model of `tsTypeForInlineFragment`: one named interface scoped to the
type condition, printed with `requiresTypename = context.options.partial`
as at its only call site. -/
def tsTypeForInlineFragment (fr : InlineFragment) (stack : ObjectStack)
    (ctx : Ctx) (st : PrintState) : TSType × PrintState :=
  let body := tsInterfaceBodyForObjectField fr.fields (.single fr.typeCondition)
    stack ctx ctx.partialFlag st
  exportDecl ctx ⟨stack.name ++ fr.typeCondition.name, body.1⟩ body.2
termination_by (sizeOf fr, 3)
decreasing_by
  apply Prod.Lex.left
  exact InlineFragment.sizeOf_selection_succ_lt fr

end

/-- Model of the input-type printer `tsTypeForGraphQLInputType` used for
operation variables.  The source's final branch destructures
`unwrappedGraphQLType.ofType`, which by the `GraphQLInputType` contract is
reachable only for list types; the leftover kinds a `GraphQLInputType`
cannot take are mapped to `any` here so the function stays total. -/
def tsTypeForGraphQLInputType (g : GQLType) (st : PrintState) :
    TSType × PrintState :=
  let core :=
    match _hunw : unwrapOnce g with
    | .scalar name =>
      match scalarTypeMap name with
      | some t => (t, st)
      | none => (.tsRef name, st.importType name)
    | .enum name => (.tsRef name, st.importType name)
    | .inputObject name => (.tsRef name, st.importType name)
    | .list ofType =>
      let arrayType := tsTypeForGraphQLInputType ofType st
      (.tsArray (if isNonNullType ofType then arrayType.1
                 else .tsParen arrayType.1), arrayType.2)
    | _ => (.tsAny, st)
  (if isNonNullType g then core.1 else .tsUnion [core.1, .tsNull], core.2)
termination_by sizeOf g
decreasing_by
  have hle := sizeOf_unwrapOnce_le g
  rw [_hunw] at hle
  simp only [GQLType.list.sizeOf_spec] at hle
  omega

/-- Operation identity feeding the `OperationContext.typeName` getter: an
operation with its name and operation type, or a fragment with its name. -/
inductive OpInfo where
  | operation (operationName : String) (operationType : String)
  | fragmentInfo (fragmentName : String)

/-- Model of the regex replace `typeName.replace(/Data$/, 'PartialData')`. -/
def replaceDataEnd (s : String) : String :=
  if jsEndsWith s "Data" then jsDropRight s 4 ++ "PartialData" else s

/-- Model of the `OperationContext.typeName` getter: capitalized operation
name plus capitalized operation type plus `Data` for operations,
capitalized fragment name plus `FragmentData` for fragments, with the
trailing `Data` regex-replaced by `PartialData` when the context carries
the partial option. -/
def contextTypeName (op : OpInfo) (partialFlag : Bool) : String :=
  let typeName :=
    match op with
    | .operation n ty => ucFirst n ++ ucFirst ty ++ "Data"
    | .fragmentInfo n => ucFirst n ++ "FragmentData"
  if partialFlag then replaceDataEnd typeName else typeName

/-- Model of `importPath`.  The source first computes
`relative(dirname(from), to)` with Node's path module, an external
collaborator; the embedding takes that relative path as its input and
performs the normalization the source adds: a `./` prefix unless the path
already starts with `..`, then stripping one trailing `.ts`
(`replace(/\.ts$/, '')`). -/
def importPath (relativePath : String) : String :=
  let normalizedPath :=
    if jsStartsWith relativePath ".." then relativePath
    else "./" ++ relativePath
  if jsEndsWith normalizedPath ".ts" then jsDropRight normalizedPath 3
  else normalizedPath

/-- One emitted `import {A, B, ...} from "source"` statement. -/
structure ImportDecl where
  specifiers : List String
  source : String
deriving Repr, DecidableEq

/-- Model of `FileContext`: the relative path from the generated file's
directory to the schema-types artifact (computed by the external path
collaborator, see `importPath`) and the insertion-ordered `importedTypes`
set. -/
structure FileContext where
  relativePath : String
  importedTypes : List String
deriving Repr, DecidableEq

def FileContext.importType (f : FileContext) (n : String) : FileContext :=
  { f with importedTypes := addImport f.importedTypes n }

/-- Model of the `FileContext.schemaImports` getter: an import statement
with one specifier per imported type, in set-iteration (insertion) order,
from the normalized relative path; `null` when nothing was imported. -/
def FileContext.schemaImports (f : FileContext) : Option ImportDecl :=
  if f.importedTypes.length > 0 then
    some ⟨f.importedTypes, importPath f.relativePath⟩
  else none

namespace Print2

/-- Model of the chained `ObjectStack` of the print2 printer
(`src/unnamed/part_002`): optional type condition, optional field, optional
parent frame, the fragment-boundary flag, and the per-frame `seenFields`
set. -/
inductive ObjectStack where
  | mk (type : Option CompositeType) (field : Option Field)
      (parent : Option ObjectStack) (isFragment : Bool) (seen : List String)

def ObjectStack.type : ObjectStack → Option CompositeType
  | .mk t _ _ _ _ => t

def ObjectStack.field : ObjectStack → Option Field
  | .mk _ f _ _ _ => f

def ObjectStack.parent : ObjectStack → Option ObjectStack
  | .mk _ _ p _ _ => p

def ObjectStack.isFragment : ObjectStack → Bool
  | .mk _ _ _ b _ => b

def ObjectStack.seen : ObjectStack → List String
  | .mk _ _ _ _ s => s

/-- Model of the print2 `ObjectStack.name` getter: the parent's name, then
the capitalized response name of this frame's field if any, then, when the
frame is a fragment boundary, the type condition's name or the literal
`Other` when no type is attached. -/
def ObjectStack.name : ObjectStack → String
  | .mk t f p isFrag _ =>
    let fieldName :=
      match f with
      | some fl => ucFirst fl.responseName
      | none => ""
    let n := (match p with
      | some q => q.name
      | none => "") ++ fieldName
    if isFrag then
      n ++ (match t with
        | some c => c.name
        | none => "Other")
    else n

/-- Model of the print2 `ObjectStack.nested`: a fresh ordinary frame whose
parent is the current frame. -/
def ObjectStack.nested (s : ObjectStack) (f : Field) (t : CompositeType) :
    ObjectStack :=
  .mk (some t) (some f) (some s) false []

/-- Model of the print2 `ObjectStack.fragment`: a fragment-boundary frame
sharing the field and parent of the frame it is created from. -/
def ObjectStack.fragment (s : ObjectStack) (t : Option CompositeType) :
    ObjectStack :=
  .mk t s.field s.parent true []

def ObjectStack.sawField (s : ObjectStack) (f : Field) : ObjectStack :=
  .mk s.type s.field s.parent s.isFragment (s.seen ++ [f.responseName])

def ObjectStack.hasSeenField (s : ObjectStack) (f : Field) : Bool :=
  s.seen.contains f.responseName

/-- Root-to-leaf list of the frames of a stack. -/
def ObjectStack.chain : ObjectStack → List ObjectStack
  | .mk t f p isFrag sn =>
    (match p with
     | some q => q.chain
     | none => []) ++ [.mk t f p isFrag sn]

/-- The contribution one frame makes to the actually-derived name: the
capitalized response name of its field if any, followed by the type
condition's name (or `Other`) when the frame itself is a fragment
boundary. -/
def ObjectStack.frameContrib (s : ObjectStack) : String :=
  (match s.field with
   | some f => ucFirst f.responseName
   | none => "") ++
  (if s.isFragment then
     match s.type with
     | some c => c.name
     | none => "Other"
   else "")

/-- The name formula asserted by the claim, following the spec's words: the
concatenation of each ancestor field's capitalized response name in
root-to-leaf order, followed by the type condition's name (or the literal
`Other`) only when the final frame is a fragment boundary. -/
def ObjectStack.claimedName (s : ObjectStack) : String :=
  String.join (s.chain.map fun t =>
    match t.field with
    | some f => ucFirst f.responseName
    | none => "") ++
  (if s.isFragment then
     match s.type with
     | some c => c.name
     | none => "Other"
   else "")

end Print2

theorem mem_addImport (l : List String) (t x : String) :
    x ∈ addImport l t ↔ x ∈ l ∨ x = t := by
  unfold addImport
  split
  · rename_i h
    constructor
    · exact fun hx => Or.inl hx
    · rintro (hx | rfl)
      · exact hx
      · exact h
  · simp

theorem addImport_nodup (l : List String) (t : String) (h : l.Nodup) :
    (addImport l t).Nodup := by
  unfold addImport
  split
  · exact h
  · rename_i hn
    simp only [List.nodup_append, List.nodup_cons, List.not_mem_nil,
      not_false_eq_true, List.nodup_nil, and_true, List.disjoint_singleton]
    exact ⟨h, trivial, hn⟩

theorem tsPropertyForField_fst_name (f : Field) (parent : ParentTypes)
    (stack : ObjectStack) (ctx : Ctx) (req : Bool) (st : PrintState) :
    (tsPropertyForField f parent stack ctx req st).1.name = f.responseName := by
  simp only [tsPropertyForField]
  split <;> rfl

theorem printBodyFields_fst_names (fs : List Field) (parent : ParentTypes)
    (stack : ObjectStack) (ctx : Ctx) (req : Bool) (st : PrintState) :
    (printBodyFields fs parent stack ctx req st).1.map (fun p => p.name) =
      fs.map (fun f => f.responseName) := by
  induction fs generalizing st with
  | nil => simp [printBodyFields]
  | cons f fs ih =>
    simp only [printBodyFields, List.map_cons]
    rw [tsPropertyForField_fst_name, ih]

theorem dedupFields_mem_snd (fs : List Field) (seen : List String) (x : String) :
    x ∈ (dedupFields fs seen).2 ↔ x ∈ seen ∨ x ∈ fs.map (fun f => f.responseName) := by
  induction fs generalizing seen with
  | nil => simp [dedupFields]
  | cons f fs ih =>
    rw [dedupFields]
    split
    · rename_i hmem
      rw [ih]
      simp only [List.map_cons, List.mem_cons]
      constructor
      · rintro (h | h)
        · exact Or.inl h
        · exact Or.inr (Or.inr h)
      · rintro (h | h | h)
        · exact Or.inl h
        · exact Or.inl (h ▸ hmem)
        · exact Or.inr h
    · rw [ih]
      simp only [List.mem_cons, List.map_cons]
      tauto

theorem dedupFields_names_nodup (fs : List Field) (seen : List String) :
    ((dedupFields fs seen).1.map (fun f => f.responseName)).Nodup ∧
      ∀ x ∈ (dedupFields fs seen).1.map (fun f => f.responseName), x ∉ seen := by
  induction fs generalizing seen with
  | nil => simp [dedupFields]
  | cons f fs ih =>
    rw [dedupFields]
    split
    · exact ih seen
    · rename_i hmem
      obtain ⟨h1, h2⟩ := ih (f.responseName :: seen)
      refine ⟨?_, ?_⟩
      · simp only [List.map_cons, List.nodup_cons]
        refine ⟨fun hc => ?_, h1⟩
        exact h2 _ hc (by simp)
      · intro x hx
        simp only [List.map_cons, List.mem_cons] at hx
        rcases hx with h | h
        · exact h ▸ hmem
        · intro hxs
          exact h2 x h (by simp [hxs])

theorem dedupFields_find_first (fs : List Field) (seen : List String) :
    ∀ f ∈ (dedupFields fs seen).1,
      fs.find? (fun x => x.responseName == f.responseName) = some f := by
  induction fs generalizing seen with
  | nil => simp [dedupFields]
  | cons f0 fs ih =>
    rw [dedupFields]
    split
    · rename_i hmem
      intro f hf
      have hne : f.responseName ≠ f0.responseName := by
        intro he
        exact (dedupFields_names_nodup fs seen).2 f.responseName
          (List.mem_map_of_mem _ hf) (he ▸ hmem)
      rw [List.find?_cons_of_neg]
      · exact ih seen f hf
      · simp only [beq_iff_eq]
        exact fun h => hne h.symm
    · rename_i hmem
      intro f hf
      have hf2 : f = f0 ∨ f ∈ (dedupFields fs (f0.responseName :: seen)).1 :=
        List.mem_cons.mp hf
      rcases hf2 with rfl | hf2
      · rw [List.find?_cons_of_pos]
        exact beq_self_eq_true _
      · have hnotin := (dedupFields_names_nodup fs (f0.responseName :: seen)).2
          f.responseName (List.mem_map_of_mem _ hf2)
        have hne : f.responseName ≠ f0.responseName := fun he =>
          hnotin (he ▸ List.mem_cons_self _ _)
        rw [List.find?_cons_of_neg]
        · exact ih (f0.responseName :: seen) f hf2
        · simp only [beq_iff_eq]
          exact fun h => hne h.symm

theorem dedupFields_names_subset_snd (fs : List Field) (seen : List String) :
    ∀ x ∈ (dedupFields fs seen).1.map (fun f => f.responseName),
      x ∈ (dedupFields fs seen).2 := by
  intro x hx
  rw [dedupFields_mem_snd]
  obtain ⟨f, hf, rfl⟩ := List.mem_map.mp hx
  exact Or.inr (List.mem_map_of_mem _ ((dedupFields_sublist fs seen).subset hf))

/-- Concrete fixture: the Ball object type. -/
def ballType : CompositeType := ⟨"Ball", .object⟩

/-- Concrete fixture: the Cube object type. -/
def cubeType : CompositeType := ⟨"Cube", .object⟩

/-- Concrete fixture: the Animal union with possible types Ball and Cube. -/
def animalUnion : CompositeType := ⟨"Animal", .union⟩

/-- Concrete fixture schema for witnesses and counterexamples. -/
def demoSchema : Schema :=
  ⟨fun n => if n = "Animal" then [ballType, cubeType] else []⟩

/-- Concrete fixture context for the standard traversal. -/
def demoCtx : Ctx := ⟨false, false, "PetQueryData", demoSchema⟩

/-- Concrete fixture context for the partial traversal. -/
def demoCtxPartial : Ctx := ⟨false, true, "PetQueryPartialData", demoSchema⟩

/-- Concrete fixture: an explicitly selected `__typename` reached through a
conditional directive. -/
def typenameCondField : Field :=
  .mk "__typename" "__typename" (.nonNull (.scalar "String")) true [] []

/-- Concrete fixture: a union-typed field carrying one inline fragment on
Ball whose selection is the conditional `__typename`. -/
def petField : Field :=
  .mk "pet" "pet" (.union "Animal") false []
    [⟨ballType, [ballType], [typenameCondField]⟩]

/-- Concrete fixture: an empty root stack. -/
def rootStack : ObjectStack := ⟨[], []⟩

/-- Concrete fixture: an empty print state. -/
def emptyState : PrintState := ⟨[], []⟩

/-- C9: for every output field whose unwrapped schema type is not a
scalar, enum, list, object, interface, or union, `tsTypeForGraphQLType`
returns the `any` placeholder (nullability-wrapped as usual), leaves the
accumulated state untouched, and raises no error: the printing of an
output field's type is total over all schema type kinds (the Lean model is
a total function, as the source has no throw on this path). -/
theorem c9_unsupported_kind_yields_any (g : GQLType) (f : Field)
    (stack : ObjectStack) (ctx : Ctx) (st : PrintState)
    (h1 : isScalarType (unwrapOnce g) = false)
    (h2 : isEnumType (unwrapOnce g) = false)
    (h3 : isListType (unwrapOnce g) = false)
    (h4 : isObjectType (unwrapOnce g) = false)
    (h5 : isInterfaceType (unwrapOnce g) = false)
    (h6 : isUnionType (unwrapOnce g) = false) :
    tsTypeForGraphQLType g f stack ctx st = (.tsAny, st) ∨
    tsTypeForGraphQLType g f stack ctx st = (.tsUnion [.tsAny, .tsNull], st) := by
  have hcore : tsTypeForUnwrapped (unwrapOnce g) f stack ctx st = (.tsAny, st) := by
    rcases hu : unwrapOnce g with n | n | n | n | n | n | t | t <;>
      rw [hu] at h1 h2 h3 h4 h5 h6 <;>
      simp_all [isScalarType, isEnumType, isListType, isObjectType,
        isInterfaceType, isUnionType, tsTypeForUnwrapped]
  simp only [tsTypeForGraphQLType, hcore]
  split
  · left; rfl
  · right; rfl

/-- Concrete fixture: a field whose type is an input object, the one
`GraphQLType` kind the output printer's dispatch does not handle. -/
def inputKindField : Field :=
  .mk "odd" "odd" (.inputObject "ReviewInput") false [] []

theorem c9_witness :
    isScalarType (unwrapOnce (.inputObject "ReviewInput")) = false ∧
    isEnumType (unwrapOnce (.inputObject "ReviewInput")) = false ∧
    isListType (unwrapOnce (.inputObject "ReviewInput")) = false ∧
    isObjectType (unwrapOnce (.inputObject "ReviewInput")) = false ∧
    isInterfaceType (unwrapOnce (.inputObject "ReviewInput")) = false ∧
    isUnionType (unwrapOnce (.inputObject "ReviewInput")) = false ∧
    (tsTypeForGraphQLType (.inputObject "ReviewInput") inputKindField rootStack
        demoCtx emptyState = (.tsAny, emptyState) ∨
     tsTypeForGraphQLType (.inputObject "ReviewInput") inputKindField rootStack
        demoCtx emptyState = (.tsUnion [.tsAny, .tsNull], emptyState)) :=
  ⟨rfl, rfl, rfl, rfl, rfl, rfl,
    c9_unsupported_kind_yields_any (.inputObject "ReviewInput") inputKindField
      rootStack demoCtx emptyState rfl rfl rfl rfl rfl rfl⟩

/-- C2 counterexample: an explicitly selected `__typename` carrying
`isConditional = true`, printed inside an inline-fragment branch of the
partial traversal (where the call sites pass `isRequiredTypename = true`),
is emitted required with a non-nullable literal type — refuting the claim
that a conditional field is always emitted optional and nullable.  The last
conjunct runs the full `tsTypeForObjectField` pipeline on that selection to
show the position is reachable. -/
theorem c2_counterexample :
    typenameCondField.isConditional = true ∧
    (tsPropertyForField typenameCondField (.single ballType)
        ((rootStack.nested petField animalUnion).fragment ballType)
        demoCtxPartial true emptyState).1 =
      ⟨"__typename", false, .tsLiteral "Ball"⟩ ∧
    tsTypeForObjectField petField animalUnion
        (rootStack.nested petField animalUnion) demoCtxPartial emptyState =
      (.tsUnion [.tsQualRef "PetQueryPartialData" "PetBall",
                 .tsQualRef "PetQueryPartialData" "PetOther"],
       ⟨[⟨"PetBall", [⟨"__typename", false, .tsLiteral "Ball"⟩]⟩,
         ⟨"PetOther", [⟨"__typename", false, .tsUnion [.tsLiteral "Cube"]⟩]⟩],
        []⟩) := by
  refine ⟨rfl, ?_, ?_⟩ <;>
    simp [tsTypeForObjectField, printFragTypes, tsTypeForInlineFragment,
      tsInterfaceBodyForObjectField, printBodyFields, tsPropertyForField,
      tsTypenameProperty, dedupFields, exportDecl, petField, typenameCondField,
      demoCtxPartial, demoSchema, ballType, cubeType, animalUnion,
      ObjectStack.fragment, ObjectStack.name, ObjectStack.nested,
      isAbstractKind, isNonNullType, ucFirst, addImport, scalarTypeMap,
      isTSUnionType, String.join, Field.fieldName, Field.responseName,
      Field.type, Field.isConditional, Field.fields, Field.inlineFragments,
      InlineFragment.typeCondition, InlineFragment.possibleTypes,
      InlineFragment.fields, rootStack, emptyState]

/-- C2 amended: every field with `isConditional = true` is emitted optional
with a nullable type, except an explicitly selected `__typename` at a
position where the printer forces the union discriminant
(`isRequiredTypename = true`, which the call sites pass inside
inline-fragment and Other branches of the partial traversal): there the
property is required and non-nullable. -/
theorem c2_conditional_weakens_nullability (f : Field) (parent : ParentTypes)
    (stack : ObjectStack) (ctx : Ctx) (req : Bool) (st : PrintState)
    (hc : f.isConditional = true)
    (hex : f.fieldName = "__typename" → req = false) :
    (tsPropertyForField f parent stack ctx req st).1.optional = true ∧
    ∃ core, (tsPropertyForField f parent stack ctx req st).1.type =
      .tsUnion [core, .tsNull] := by
  by_cases h : f.fieldName = "__typename"
  · have hreq := hex h
    subst hreq
    rcases parent with pt | pts <;>
      simp [tsPropertyForField, if_pos h, tsTypenameProperty, hc]
  · simp only [tsPropertyForField, if_neg h]
    constructor
    · simp [hc]
    · simp [tsTypeForGraphQLType, hc]

/-- Concrete fixture: a conditional non-null scalar field. -/
def condTitleField : Field :=
  .mk "title" "title" (.nonNull (.scalar "String")) true [] []

theorem c2_witness :
    condTitleField.isConditional = true ∧
    (condTitleField.fieldName = "__typename" → false = false) ∧
    ((tsPropertyForField condTitleField (.single ballType) rootStack demoCtx
        false emptyState).1.optional = true ∧
     ∃ core, (tsPropertyForField condTitleField (.single ballType) rootStack
        demoCtx false emptyState).1.type = .tsUnion [core, .tsNull]) :=
  ⟨rfl, fun _ => rfl,
    c2_conditional_weakens_nullability condTitleField (.single ballType)
      rootStack demoCtx false emptyState rfl (fun _ => rfl)⟩

/-- Concrete fixture: a field of type `[Animal!]` (list of non-null union)
carrying one inline fragment on Ball. -/
def petsListField : Field :=
  .mk "pets" "pets" (.list (.nonNull (.union "Animal"))) false []
    [⟨ballType, [ballType], []⟩]

/-- C6 counterexample: for the list type `[Animal!]` whose non-null element
is a union with inline fragments, the element's rendered type is a fragment
union and the printer parenthesizes it even though the element is non-null —
refuting the claim that a non-null element is array-wrapped without
parenthesization.  (The partial traversal similarly parenthesizes every
non-null element.) -/
theorem c6_counterexample :
    isNonNullType (.nonNull (.union "Animal")) = true ∧
    tsTypeForGraphQLType (.list (.nonNull (.union "Animal"))) petsListField
        rootStack demoCtx emptyState =
      (.tsUnion [.tsArray (.tsParen (.tsUnion
          [.tsQualRef "PetQueryData" "PetsBall",
           .tsQualRef "PetQueryData" "PetsOther"])), .tsNull],
       ⟨[⟨"PetsBall", []⟩, ⟨"PetsOther", []⟩], []⟩) := by
  refine ⟨rfl, ?_⟩
  simp [tsTypeForGraphQLType, tsTypeForUnwrapped, tsTypeForObjectField,
    printFragTypes, tsTypeForInlineFragment, tsInterfaceBodyForObjectField,
    printBodyFields, tsPropertyForField, tsTypenameProperty, dedupFields,
    exportDecl, petsListField, demoCtx, demoSchema, ballType, cubeType,
    animalUnion, ObjectStack.fragment, ObjectStack.name, ObjectStack.nested,
    isAbstractKind, isNonNullType, unwrapOnce, ucFirst, addImport,
    scalarTypeMap, isTSUnionType, String.join, Field.fieldName,
    Field.responseName, Field.type, Field.isConditional, Field.fields,
    Field.inlineFragments, InlineFragment.typeCondition,
    InlineFragment.possibleTypes, InlineFragment.fields, rootStack, emptyState]

/-- One unfolding of the nullability wrapper of `tsTypeForGraphQLType` for a
type without the non-null wrapper. -/
theorem tsTypeForGraphQLType_of_nullable (gt : GQLType) (f : Field)
    (stack : ObjectStack) (ctx : Ctx) (st : PrintState)
    (hn : isNonNullType gt = false) :
    tsTypeForGraphQLType gt f stack ctx st =
      (.tsUnion [(tsTypeForUnwrapped (unwrapOnce gt) f stack ctx st).1, .tsNull],
       (tsTypeForUnwrapped (unwrapOnce gt) f stack ctx st).2) := by
  simp [tsTypeForGraphQLType, hn]

/-- One unfolding of the nullability wrapper of `tsTypeForGraphQLInputType`
for a type without the non-null wrapper. -/
theorem tsTypeForGraphQLInputType_of_nullable (g : GQLType) (st : PrintState)
    (hn : isNonNullType g = false) :
    ∃ core st2, tsTypeForGraphQLInputType g st = (.tsUnion [core, .tsNull], st2) := by
  rw [tsTypeForGraphQLInputType.eq_def]
  simp only [hn, Bool.false_eq_true, if_false]
  exact ⟨_, _, rfl⟩

/-- C6 amended: the output printer parenthesizes a list element exactly when
the element's rendered type is a union — which is the case for every
nullable element (rendered as a union with null), and also for a non-null
element whose own rendered type is a union (a fragment union, or any
element under the partial flag); the input printer parenthesizes exactly by
element nullability, as the claim states. -/
theorem c6_list_parenthesization (ofType : GQLType) (f : Field)
    (stack : ObjectStack) (ctx : Ctx) (st : PrintState) :
    (isNonNullType ofType = false →
      tsTypeForUnwrapped (.list ofType) f stack ctx st =
        (.tsArray (.tsParen ((tsTypeForGraphQLType ofType f stack ctx st).1)),
         (tsTypeForGraphQLType ofType f stack ctx st).2) ∧
      ∃ core, (tsTypeForGraphQLType ofType f stack ctx st).1 =
        .tsUnion [core, .tsNull]) ∧
    (isTSUnionType (tsTypeForGraphQLType ofType f stack ctx st).1 = false →
      tsTypeForUnwrapped (.list ofType) f stack ctx st =
        (.tsArray ((tsTypeForGraphQLType ofType f stack ctx st).1),
         (tsTypeForGraphQLType ofType f stack ctx st).2)) ∧
    (isNonNullType ofType = true →
      tsTypeForGraphQLInputType (.list ofType) st =
        (.tsUnion [.tsArray ((tsTypeForGraphQLInputType ofType st).1), .tsNull],
         (tsTypeForGraphQLInputType ofType st).2)) ∧
    (isNonNullType ofType = false →
      tsTypeForGraphQLInputType (.list ofType) st =
        (.tsUnion [.tsArray (.tsParen ((tsTypeForGraphQLInputType ofType st).1)),
           .tsNull],
         (tsTypeForGraphQLInputType ofType st).2) ∧
      ∃ core, (tsTypeForGraphQLInputType ofType st).1 =
        .tsUnion [core, .tsNull]) := by
  refine ⟨fun hn => ⟨?_, ?_⟩, fun hu => ?_, fun hnn => ?_, fun hn => ⟨?_, ?_⟩⟩
  · rw [tsTypeForGraphQLType_of_nullable ofType f stack ctx st hn]
    simp [tsTypeForUnwrapped, tsTypeForGraphQLType_of_nullable ofType f stack
      ctx st hn, isTSUnionType]
  · rw [tsTypeForGraphQLType_of_nullable ofType f stack ctx st hn]
    exact ⟨_, rfl⟩
  · simp [tsTypeForUnwrapped, hu]
  · conv_lhs => rw [tsTypeForGraphQLInputType.eq_def]
    have hl : isNonNullType (GQLType.list ofType) = false := rfl
    simp [unwrapOnce, hnn, hl]
  · conv_lhs => rw [tsTypeForGraphQLInputType.eq_def]
    have hl : isNonNullType (GQLType.list ofType) = false := rfl
    simp [unwrapOnce, hn, hl]
  · obtain ⟨c, s2, hcs⟩ := tsTypeForGraphQLInputType_of_nullable ofType st hn
    exact ⟨c, by rw [hcs]⟩

/-- Concrete fixture: a plain non-conditional `String` field. -/
def plainNameField : Field := .mk "n" "n" (.scalar "String") false [] []

theorem c6_witness :
    isNonNullType (.scalar "String") = false ∧
    (tsTypeForUnwrapped (.list (.scalar "String")) plainNameField rootStack
        demoCtx emptyState =
      (.tsArray (.tsParen ((tsTypeForGraphQLType (.scalar "String")
          plainNameField rootStack demoCtx emptyState).1)),
       (tsTypeForGraphQLType (.scalar "String") plainNameField rootStack
          demoCtx emptyState).2) ∧
     ∃ core, (tsTypeForGraphQLType (.scalar "String") plainNameField rootStack
          demoCtx emptyState).1 = .tsUnion [core, .tsNull]) ∧
    isNonNullType (.nonNull (.scalar "Int")) = true ∧
    tsTypeForGraphQLInputType (.list (.nonNull (.scalar "Int"))) emptyState =
      (.tsUnion [.tsArray ((tsTypeForGraphQLInputType (.nonNull (.scalar "Int"))
          emptyState).1), .tsNull],
       (tsTypeForGraphQLInputType (.nonNull (.scalar "Int")) emptyState).2) :=
  ⟨rfl,
   (c6_list_parenthesization (.scalar "String") plainNameField rootStack demoCtx
      emptyState).1 rfl,
   rfl,
   (c6_list_parenthesization (.nonNull (.scalar "Int")) plainNameField rootStack
      demoCtx emptyState).2.2.1 rfl⟩

theorem jsEndsWith_append (a b : String) : jsEndsWith (a ++ b) b = true := by
  simp only [jsEndsWith, String.data_append, List.isSuffixOf_iff_suffix]
  exact List.suffix_append a.data b.data

theorem jsDropRight_append (a b : String) : jsDropRight (a ++ b) b.length = a := by
  apply String.ext
  show ((a ++ b).data.take ((a ++ b).data.length - b.length)) = a.data
  rw [String.data_append, List.length_append]
  have h : a.data.length + b.data.length - b.length = a.data.length := by
    have hb : b.length = b.data.length := rfl
    omega
  rw [h, List.take_left]

theorem replaceDataEnd_append (a : String) :
    replaceDataEnd (a ++ "Data") = a ++ "PartialData" := by
  unfold replaceDataEnd
  rw [if_pos (jsEndsWith_append a "Data")]
  have h := jsDropRight_append a "Data"
  rw [show ("Data" : String).length = 4 from rfl] at h
  rw [h]

/-- Concrete fixture: a union-typed field carrying one inline fragment on
Ball with an empty selection (no explicit `__typename` anywhere). -/
def petBareField : Field :=
  .mk "pet" "pet" (.union "Animal") false [] [⟨ballType, [ballType], []⟩]

/-- C7 counterexample: in the partial traversal of a field with inline
fragments, the synthetic `__typename` injected into the fragment branch and
the Other branch is emitted with `optional = false`, although `__typename`
was never explicitly requested — refuting the claim that every property of
the partial variant is optional/nullable. -/
theorem c7_counterexample :
    demoCtxPartial.partialFlag = true ∧
    petBareField.fields = [] ∧
    tsTypeForObjectField petBareField animalUnion
        (rootStack.nested petBareField animalUnion) demoCtxPartial emptyState =
      (.tsUnion [.tsQualRef "PetQueryPartialData" "PetBall",
                 .tsQualRef "PetQueryPartialData" "PetOther"],
       ⟨[⟨"PetBall", [⟨"__typename", false, .tsLiteral "Ball"⟩]⟩,
         ⟨"PetOther", [⟨"__typename", false, .tsUnion [.tsLiteral "Cube"]⟩]⟩],
        []⟩) := by
  refine ⟨rfl, rfl, ?_⟩
  simp [tsTypeForObjectField, printFragTypes, tsTypeForInlineFragment,
    tsInterfaceBodyForObjectField, printBodyFields, tsPropertyForField,
    tsTypenameProperty, dedupFields, exportDecl, petBareField, demoCtxPartial,
    demoSchema, ballType, cubeType, animalUnion, ObjectStack.fragment,
    ObjectStack.name, ObjectStack.nested, isAbstractKind, isNonNullType,
    ucFirst, addImport, scalarTypeMap, isTSUnionType, String.join,
    Field.fieldName, Field.responseName, Field.type, Field.isConditional,
    Field.fields, Field.inlineFragments, InlineFragment.typeCondition,
    InlineFragment.possibleTypes, InlineFragment.fields, rootStack, emptyState]

/-- C7 amended: the partial type name replaces the trailing `Data` with
`PartialData` as claimed, and with the partial flag every emitted property
is optional — except `__typename` at a position where the printer forces
the union discriminant (`isRequiredTypename = true`, passed inside
inline-fragment and Other branches of the partial traversal), which is
emitted required whether or not it was explicitly requested. -/
theorem c7_partial_variant (op : OpInfo) (f : Field) (parent : ParentTypes)
    (stack : ObjectStack) (ctx : Ctx) (req : Bool) (st : PrintState)
    (hp : ctx.partialFlag = true)
    (hex : f.fieldName = "__typename" → req = false) :
    (jsEndsWith (contextTypeName op false) "Data" = true ∧
     contextTypeName op true =
       jsDropRight (contextTypeName op false) 4 ++ "PartialData") ∧
    (tsPropertyForField f parent stack ctx req st).1.optional = true ∧
    (∀ (rn : String) (cnd : Bool) (ft : GQLType),
      (tsTypenameProperty rn cnd ft parent ctx true).optional = false) := by
  refine ⟨?_, ?_, fun rn cnd ft => by simp [tsTypenameProperty]⟩
  · cases op with
    | operation n ty =>
      simp only [contextTypeName, Bool.false_eq_true, if_false, if_true]
      refine ⟨jsEndsWith_append _ _, ?_⟩
      rw [replaceDataEnd_append]
      have h := jsDropRight_append (ucFirst n ++ ucFirst ty) "Data"
      rw [show ("Data" : String).length = 4 from rfl] at h
      rw [h]
    | fragmentInfo n =>
      simp only [contextTypeName, Bool.false_eq_true, if_false, if_true]
      have h2 : ucFirst n ++ "FragmentData" = (ucFirst n ++ "Fragment") ++ "Data" := by
        rw [String.append_assoc]
        rw [show ("Fragment" : String) ++ "Data" = "FragmentData" from rfl]
      rw [h2]
      refine ⟨jsEndsWith_append _ _, ?_⟩
      rw [replaceDataEnd_append]
      have h := jsDropRight_append (ucFirst n ++ "Fragment") "Data"
      rw [show ("Data" : String).length = 4 from rfl] at h
      rw [h]
  · by_cases h : f.fieldName = "__typename"
    · have hreq := hex h
      subst hreq
      simp [tsPropertyForField, if_pos h, tsTypenameProperty, hp]
    · simp [tsPropertyForField, if_neg h, hp]

theorem c7_witness :
    demoCtxPartial.partialFlag = true ∧
    (plainNameField.fieldName = "__typename" → false = false) ∧
    ((jsEndsWith (contextTypeName (.operation "get" "query") false) "Data" = true ∧
      contextTypeName (.operation "get" "query") true =
        jsDropRight (contextTypeName (.operation "get" "query") false) 4 ++
          "PartialData") ∧
     (tsPropertyForField plainNameField (.single ballType) rootStack
        demoCtxPartial false emptyState).1.optional = true ∧
     (∀ (rn : String) (cnd : Bool) (ft : GQLType),
        (tsTypenameProperty rn cnd ft (.single ballType) demoCtxPartial
          true).optional = false)) :=
  ⟨rfl, fun _ => rfl,
    c7_partial_variant (.operation "get" "query") plainNameField
      (.single ballType) rootStack demoCtxPartial false emptyState rfl
      (fun _ => rfl)⟩

/-- C3: in the standard (non-partial) traversal, a `__typename` selection
against a single concrete parent type is emitted as the string-literal type
of that type's name, against a list of parent types (the synthesized Other
branch) as the union of their literal names; with `addTypename` enabled and
no explicit `__typename` at the level, a synthetic required `__typename`
property is injected ahead of the user fields, and none is added when one
is already selected. -/
theorem c3_typename_field (ctx : Ctx) (pt : CompositeType)
    (pts : List CompositeType) (f : Field) (fields : List Field)
    (stack : ObjectStack) (st : PrintState)
    (hp : ctx.partialFlag = false)
    (hf : f.fieldName = "__typename")
    (hc : f.isConditional = false)
    (ht : isNonNullType f.type = true) :
    (tsPropertyForField f (.single pt) stack ctx false st).1 =
      ⟨f.responseName, false, .tsLiteral pt.name⟩ ∧
    (tsPropertyForField f (.multiple pts) stack ctx false st).1 =
      ⟨f.responseName, false, .tsUnion (pts.map fun t => .tsLiteral t.name)⟩ ∧
    (ctx.addTypename = true →
      "__typename" ∉ stack.seen →
      "__typename" ∉ fields.map (fun x => x.responseName) →
      (tsInterfaceBodyForObjectField fields (.single pt) stack ctx false st).1 =
        ⟨"__typename", false, .tsLiteral pt.name⟩ ::
          (printBodyFields (dedupFields fields stack.seen).1 (.single pt) stack
            ctx false st).1) ∧
    ("__typename" ∈ fields.map (fun x => x.responseName) →
      (tsInterfaceBodyForObjectField fields (.single pt) stack ctx false st).1 =
        (printBodyFields (dedupFields fields stack.seen).1 (.single pt) stack
          ctx false st).1) := by
  refine ⟨?_, ?_, ?_, ?_⟩
  · simp [tsPropertyForField, if_pos hf, tsTypenameProperty, hc, hp, ht]
  · simp [tsPropertyForField, if_pos hf, tsTypenameProperty, hc, hp, ht]
  · intro ha hseen hnames
    have hdd : "__typename" ∉ (dedupFields fields stack.seen).2 := by
      rw [dedupFields_mem_snd]
      rintro (h | h)
      · exact hseen h
      · exact hnames h
    simp only [tsInterfaceBodyForObjectField, ha, Bool.true_or, Bool.true_and]
    rw [if_pos]
    · simp [tsTypenameProperty, hp, isNonNullType]
    · simp [hdd]
  · intro hmem
    have hdd : "__typename" ∈ (dedupFields fields stack.seen).2 := by
      rw [dedupFields_mem_snd]
      exact Or.inr hmem
    simp only [tsInterfaceBodyForObjectField]
    rw [if_neg]
    simp
    exact fun _ => hdd

/-- Concrete fixture: a context with the `addTypename` option enabled. -/
def demoCtxAdd : Ctx := ⟨true, false, "PetQueryData", demoSchema⟩

/-- Concrete fixture: a plain non-conditional explicit `__typename`
selection. -/
def typenamePlainField : Field :=
  .mk "__typename" "__typename" (.nonNull (.scalar "String")) false [] []

theorem c3_witness :
    demoCtxAdd.partialFlag = false ∧
    typenamePlainField.fieldName = "__typename" ∧
    typenamePlainField.isConditional = false ∧
    isNonNullType typenamePlainField.type = true ∧
    ((tsPropertyForField typenamePlainField (.single ballType) rootStack
        demoCtxAdd false emptyState).1 =
      ⟨typenamePlainField.responseName, false, .tsLiteral ballType.name⟩ ∧
     (tsPropertyForField typenamePlainField (.multiple [ballType, cubeType])
        rootStack demoCtxAdd false emptyState).1 =
      ⟨typenamePlainField.responseName, false,
       .tsUnion ([ballType, cubeType].map fun t => .tsLiteral t.name)⟩ ∧
     (demoCtxAdd.addTypename = true →
      "__typename" ∉ rootStack.seen →
      "__typename" ∉ [plainNameField].map (fun x => x.responseName) →
      (tsInterfaceBodyForObjectField [plainNameField] (.single ballType)
          rootStack demoCtxAdd false emptyState).1 =
        ⟨"__typename", false, .tsLiteral ballType.name⟩ ::
          (printBodyFields (dedupFields [plainNameField] rootStack.seen).1
            (.single ballType) rootStack demoCtxAdd false emptyState).1) ∧
     ("__typename" ∈ [plainNameField].map (fun x => x.responseName) →
      (tsInterfaceBodyForObjectField [plainNameField] (.single ballType)
          rootStack demoCtxAdd false emptyState).1 =
        (printBodyFields (dedupFields [plainNameField] rootStack.seen).1
          (.single ballType) rootStack demoCtxAdd false emptyState).1)) :=
  ⟨rfl, rfl, rfl, rfl,
    c3_typename_field demoCtxAdd ballType [ballType, cubeType]
      typenamePlainField [plainNameField] rootStack emptyState rfl rfl rfl rfl⟩

theorem tsInterfaceBody_names_nodup (fields : List Field) (parent : ParentTypes)
    (stack : ObjectStack) (ctx : Ctx) (req : Bool) (st : PrintState) :
    ((tsInterfaceBodyForObjectField fields parent stack ctx req st).1.map
      (fun p => p.name)).Nodup := by
  have hnames := printBodyFields_fst_names (dedupFields fields stack.seen).1
    parent stack ctx req st
  have hnodup := (dedupFields_names_nodup fields stack.seen).1
  by_cases hcond : ((ctx.addTypename || req) &&
      !((dedupFields fields stack.seen).2.contains "__typename")) = true
  · have h2 : "__typename" ∉ (dedupFields fields stack.seen).2 := by
      rw [Bool.and_eq_true] at hcond
      have := hcond.2
      simpa using this
    simp only [tsInterfaceBodyForObjectField, hcond, if_true]
    simp only [List.map_cons, List.nodup_cons]
    rw [hnames]
    refine ⟨?_, hnames ▸ hnodup⟩
    show (tsTypenameProperty "__typename" false (.nonNull (.scalar "String"))
      parent ctx req).name ∉ _
    intro hmem
    exact h2 (dedupFields_names_subset_snd fields stack.seen _ (by
      simpa [tsTypenameProperty] using hmem))
  · have hc2 : ((ctx.addTypename || req) &&
        !((dedupFields fields stack.seen).2.contains "__typename")) = false := by
      simpa using hcond
    simp only [tsInterfaceBodyForObjectField, hc2, if_false]
    exact hnames ▸ hnodup

/-- C5: the emitted interface body never contains two properties with the
same response name (any later field whose response name was already seen at
the stack position is skipped), the field kept for a name is the first
occurrence in the selection list, kept fields never collide with the
incoming seen set, and every newly created nested or fragment frame (in
both the final printer's `ObjectStack` and the print2 chained
`ObjectStack`) starts with a fresh, empty seen set. -/
theorem c5_dedup_per_frame (fields : List Field) (parent : ParentTypes)
    (stack : ObjectStack) (ctx : Ctx) (req : Bool) (st : PrintState)
    (f : Field) (t : CompositeType) (s2 : Print2.ObjectStack)
    (oc : Option CompositeType) :
    (((tsInterfaceBodyForObjectField fields parent stack ctx req st).1.map
        (fun p => p.name)).Nodup) ∧
    (∀ fl ∈ (dedupFields fields stack.seen).1,
      fields.find? (fun x => x.responseName == fl.responseName) = some fl) ∧
    (∀ fl ∈ (dedupFields fields stack.seen).1, fl.responseName ∉ stack.seen) ∧
    ((stack.nested f t).seen = [] ∧ (stack.fragment t).seen = []) ∧
    ((s2.nested f t).seen = [] ∧ (s2.fragment oc).seen = []) := by
  refine ⟨tsInterfaceBody_names_nodup fields parent stack ctx req st,
    dedupFields_find_first fields stack.seen, ?_, ⟨rfl, rfl⟩, ⟨rfl, rfl⟩⟩
  intro fl hfl
  exact (dedupFields_names_nodup fields stack.seen).2 fl.responseName
    (List.mem_map_of_mem _ hfl)

theorem c5_witness :
    ((tsInterfaceBodyForObjectField [plainNameField, plainNameField, condTitleField]
        (.single ballType) rootStack demoCtxAdd false emptyState).1.map
      (fun p => p.name)).Nodup ∧
    (∀ fl ∈ (dedupFields [plainNameField, plainNameField, condTitleField]
        rootStack.seen).1,
      [plainNameField, plainNameField, condTitleField].find?
        (fun x => x.responseName == fl.responseName) = some fl) ∧
    (∀ fl ∈ (dedupFields [plainNameField, plainNameField, condTitleField]
        rootStack.seen).1, fl.responseName ∉ rootStack.seen) ∧
    ((rootStack.nested plainNameField ballType).seen = [] ∧
     (rootStack.fragment ballType).seen = []) ∧
    (((Print2.ObjectStack.mk (some ballType) none none false []).nested
        plainNameField ballType).seen = [] ∧
     ((Print2.ObjectStack.mk (some ballType) none none false []).fragment
        (some cubeType)).seen = []) :=
  c5_dedup_per_frame [plainNameField, plainNameField, condTitleField]
    (.single ballType) rootStack demoCtxAdd false emptyState plainNameField
    ballType (Print2.ObjectStack.mk (some ballType) none none false [])
    (some cubeType)

theorem printFragTypes_fst (frs : List InlineFragment) (stack : ObjectStack)
    (ctx : Ctx) (st : PrintState) :
    (printFragTypes frs stack ctx st).1 =
      frs.map fun fr => TSType.tsQualRef ctx.typeName
        (stack.name ++ fr.typeCondition.name) := by
  induction frs generalizing st with
  | nil => simp [printFragTypes]
  | cons fr frs ih =>
    simp only [printFragTypes, tsTypeForInlineFragment, exportDecl,
      List.map_cons, List.cons.injEq]
    exact ⟨rfl, ih _⟩

/-- C1: for a composite field with inline fragments over an abstract type,
the emitted union is the per-inline-fragment type references in declaration
order; when the union of the fragments' possible types covers every
possible concrete type of the schema, no Other member is emitted, and when
coverage is partial, exactly one Other member is appended last, its
interface exported and printed against the list of missing concrete
types. -/
theorem c1_exhaustive_union (f : Field) (g : CompositeType)
    (stack : ObjectStack) (ctx : Ctx) (st : PrintState)
    (covered missing : List CompositeType)
    (hfr : f.inlineFragments ≠ [])
    (hk : isAbstractKind g.kind = true)
    (hcov : covered =
      f.inlineFragments.foldl (fun acc fr => acc ++ fr.possibleTypes) [])
    (hmiss : missing = (ctx.schema.possibleTypes g.name).filter
      fun pt => !(covered.contains pt)) :
    ((printFragTypes f.inlineFragments stack ctx st).1 =
      f.inlineFragments.map fun fr =>
        TSType.tsQualRef ctx.typeName (stack.name ++ fr.typeCondition.name)) ∧
    ((∀ pt ∈ ctx.schema.possibleTypes g.name, pt ∈ covered) →
      tsTypeForObjectField f g stack ctx st =
        (.tsUnion (printFragTypes f.inlineFragments stack ctx st).1,
         (printFragTypes f.inlineFragments stack ctx st).2)) ∧
    (missing ≠ [] →
      tsTypeForObjectField f g stack ctx st =
        (.tsUnion ((printFragTypes f.inlineFragments stack ctx st).1 ++
           [.tsQualRef ctx.typeName (stack.name ++ "Other")]),
         { exported := (tsInterfaceBodyForObjectField f.fields
             (.multiple missing) stack ctx ctx.partialFlag
             (printFragTypes f.inlineFragments stack ctx st).2).2.exported ++
             [⟨stack.name ++ "Other",
               (tsInterfaceBodyForObjectField f.fields (.multiple missing)
                 stack ctx ctx.partialFlag
                 (printFragTypes f.inlineFragments stack ctx st).2).1⟩],
           imported := (tsInterfaceBodyForObjectField f.fields
             (.multiple missing) stack ctx ctx.partialFlag
             (printFragTypes f.inlineFragments stack ctx st).2).2.imported })) := by
  subst hcov
  subst hmiss
  have hempty : f.inlineFragments.isEmpty = false := by
    cases hl : f.inlineFragments with
    | nil => exact absurd hl hfr
    | cons a l => rfl
  refine ⟨printFragTypes_fst _ _ _ _, ?_, ?_⟩
  · intro hcovAll
    have hm : (ctx.schema.possibleTypes g.name).filter
        (fun pt => !((f.inlineFragments.foldl
          (fun acc fr => acc ++ fr.possibleTypes) []).contains pt)) = [] := by
      rw [List.filter_eq_nil_iff]
      intro a ha
      simp [hcovAll a ha]
    simp only [tsTypeForObjectField, hempty, hk, hm, Bool.false_eq_true,
      if_false, if_true, List.isEmpty_nil]
  · intro hne
    have hm2 : ((ctx.schema.possibleTypes g.name).filter
        (fun pt => !((f.inlineFragments.foldl
          (fun acc fr => acc ++ fr.possibleTypes) []).contains pt))).isEmpty =
        false := by
      cases hl : (ctx.schema.possibleTypes g.name).filter
          (fun pt => !((f.inlineFragments.foldl
            (fun acc fr => acc ++ fr.possibleTypes) []).contains pt)) with
      | nil => exact absurd hl hne
      | cons a l => rfl
    simp only [tsTypeForObjectField, hempty, hk, hm2, Bool.false_eq_true,
      if_false, if_true, exportDecl]

/-- Concrete fixture: a schema where Ball is the only possible type of
Animal. -/
def demoSchemaBallOnly : Schema :=
  ⟨fun n => if n = "Animal" then [ballType] else []⟩

/-- Concrete fixture: the standard context over the Ball-only schema. -/
def demoCtxBallOnly : Ctx := ⟨false, false, "PetQueryData", demoSchemaBallOnly⟩

theorem c1_witness :
    petBareField.inlineFragments ≠ [] ∧
    isAbstractKind animalUnion.kind = true ∧
    ([ballType] =
      petBareField.inlineFragments.foldl
        (fun acc fr => acc ++ fr.possibleTypes) []) ∧
    ([cubeType] = (demoCtx.schema.possibleTypes animalUnion.name).filter
      fun pt => !(List.contains [ballType] pt)) ∧
    (∀ pt ∈ demoCtxBallOnly.schema.possibleTypes animalUnion.name,
      pt ∈ [ballType]) ∧
    ((printFragTypes petBareField.inlineFragments rootStack demoCtx
        emptyState).1 =
      petBareField.inlineFragments.map fun fr =>
        TSType.tsQualRef demoCtx.typeName
          (rootStack.name ++ fr.typeCondition.name)) ∧
    (tsTypeForObjectField petBareField animalUnion rootStack demoCtxBallOnly
        emptyState =
      (.tsUnion (printFragTypes petBareField.inlineFragments rootStack
         demoCtxBallOnly emptyState).1,
       (printFragTypes petBareField.inlineFragments rootStack demoCtxBallOnly
         emptyState).2)) ∧
    (tsTypeForObjectField petBareField animalUnion rootStack demoCtx
        emptyState =
      (.tsUnion ((printFragTypes petBareField.inlineFragments rootStack demoCtx
           emptyState).1 ++
         [.tsQualRef demoCtx.typeName (rootStack.name ++ "Other")]),
       { exported := (tsInterfaceBodyForObjectField petBareField.fields
           (.multiple [cubeType]) rootStack demoCtx demoCtx.partialFlag
           (printFragTypes petBareField.inlineFragments rootStack demoCtx
             emptyState).2).2.exported ++
           [⟨rootStack.name ++ "Other",
             (tsInterfaceBodyForObjectField petBareField.fields
               (.multiple [cubeType]) rootStack demoCtx demoCtx.partialFlag
               (printFragTypes petBareField.inlineFragments rootStack demoCtx
                 emptyState).2).1⟩],
         imported := (tsInterfaceBodyForObjectField petBareField.fields
           (.multiple [cubeType]) rootStack demoCtx demoCtx.partialFlag
           (printFragTypes petBareField.inlineFragments rootStack demoCtx
             emptyState).2).2.imported })) := by
  refine ⟨by simp [petBareField, Field.inlineFragments], rfl, by decide, ?_, ?_, ?_, ?_, ?_⟩
  · simp [demoCtx, demoSchema, animalUnion, ballType, cubeType]
  · intro pt hpt
    simp [demoCtxBallOnly, demoSchemaBallOnly, animalUnion] at hpt
    simp [hpt]
  · exact (c1_exhaustive_union petBareField animalUnion rootStack demoCtx
      emptyState [ballType] [cubeType]
      (by simp [petBareField, Field.inlineFragments]) rfl (by decide)
      (by simp [demoCtx, demoSchema, animalUnion, ballType, cubeType])).1
  · exact (c1_exhaustive_union petBareField animalUnion rootStack
      demoCtxBallOnly emptyState [ballType]
      ((demoCtxBallOnly.schema.possibleTypes animalUnion.name).filter
        fun pt => !(List.contains [ballType] pt))
      (by simp [petBareField, Field.inlineFragments]) rfl (by decide) rfl).2.1
      (by
        intro pt hpt
        simp [demoCtxBallOnly, demoSchemaBallOnly, animalUnion] at hpt
        simp [hpt])
  · exact (c1_exhaustive_union petBareField animalUnion rootStack demoCtx
      emptyState [ballType] [cubeType]
      (by simp [petBareField, Field.inlineFragments]) rfl (by decide)
      (by simp [demoCtx, demoSchema, animalUnion, ballType, cubeType])).2.2
      (by simp)

theorem string_foldl_append (l : List String) (init : String) :
    l.foldl (fun r s => r ++ s) init = init ++ l.foldl (fun r s => r ++ s) "" := by
  induction l generalizing init with
  | nil => simp
  | cons a l ih =>
    simp only [List.foldl_cons]
    rw [ih (init ++ a), ih ("" ++ a)]
    simp [String.append_assoc]

theorem string_join_append (l1 l2 : List String) :
    String.join (l1 ++ l2) = String.join l1 ++ String.join l2 := by
  show (l1 ++ l2).foldl (fun r s => r ++ s) "" = _
  rw [List.foldl_append]
  rw [string_foldl_append l2 (l1.foldl (fun r s => r ++ s) "")]
  rfl

/-- The shared prefix of all sibling fragment frames created from one
frame: the parent chain's name plus the capitalized response name of the
shared field. -/
def Print2.fragmentBase (s : Print2.ObjectStack) : String :=
  (match s.parent with
   | some q => q.name
   | none => "") ++
  (match s.field with
   | some f => ucFirst f.responseName
   | none => "")

theorem Print2.ObjectStack.name_eq_chain (s : Print2.ObjectStack) :
    s.name = String.join (s.chain.map Print2.ObjectStack.frameContrib) := by
  cases s with
  | mk t f p isFrag sn =>
    cases p with
    | none =>
      simp [Print2.ObjectStack.name, Print2.ObjectStack.chain,
        Print2.ObjectStack.frameContrib, String.join,
        Print2.ObjectStack.field, Print2.ObjectStack.isFragment,
        Print2.ObjectStack.type]
      split <;> simp [String.append_assoc]
    | some q =>
      have ih := Print2.ObjectStack.name_eq_chain q
      simp only [Print2.ObjectStack.name, Print2.ObjectStack.chain,
        List.map_append, List.map_cons, List.map_nil, string_join_append, ih,
        Print2.ObjectStack.frameContrib, Print2.ObjectStack.field,
        Print2.ObjectStack.isFragment, Print2.ObjectStack.type, String.join,
        List.foldl_cons, List.foldl_nil]
      split <;> simp [String.append_assoc]
termination_by sizeOf s
decreasing_by
  simp_wf
  omega

/-- Concrete fixture: a print2 root frame for the Query type. -/
def p2Root : Print2.ObjectStack := .mk (some ⟨"Query", .object⟩) none none false []

/-- Concrete fixture: an ordinary color field. -/
def colorField : Field := .mk "color" "color" (.object "Color") false [] []

/-- Concrete fixture: a nested frame pushed on top of a fragment frame, the
shape produced when printing an object field inside an inline fragment. -/
def p2Nested : Print2.ObjectStack :=
  (p2Root.fragment (some ballType)).nested colorField ⟨"Color", .object⟩

/-- C4 counterexample: for a nested frame created on top of a fragment
frame, the derived name keeps the fragment's type-condition name in the
middle (`BallColor`), while the claimed formula — ancestor field names
plus a trailing condition only when the final frame is a fragment
boundary — yields `Color`. -/
theorem c4_counterexample :
    p2Nested.name = "BallColor" ∧
    Print2.ObjectStack.claimedName p2Nested = "Color" ∧
    p2Nested.name ≠ Print2.ObjectStack.claimedName p2Nested := by
  refine ⟨?_, ?_, ?_⟩ <;>
    simp [p2Nested, p2Root, colorField, ballType, Print2.ObjectStack.name,
      Print2.ObjectStack.claimedName, Print2.ObjectStack.chain,
      Print2.ObjectStack.fragment, Print2.ObjectStack.nested,
      Print2.ObjectStack.field, Print2.ObjectStack.parent,
      Print2.ObjectStack.isFragment, Print2.ObjectStack.type, ucFirst,
      String.join, Field.responseName]

/-- C4 amended: the derived name is the concatenation, in root-to-leaf
order, of each frame's contribution — the capitalized response name of its
field (if any) followed by its type-condition name (or `Other`) whenever
that frame itself is a fragment boundary, not only when it is the final
frame; and a fragment frame shares the field and parent of the frame it
was created from, so sibling inline fragments on the same field yield
names differing only in the trailing type-condition name. -/
theorem c4_stack_name_contributions (s : Print2.ObjectStack)
    (t : Option CompositeType) (c : CompositeType) :
    s.name = String.join (s.chain.map Print2.ObjectStack.frameContrib) ∧
    (s.fragment t).field = s.field ∧
    (s.fragment t).parent = s.parent ∧
    (s.fragment (some c)).name = Print2.fragmentBase s ++ c.name ∧
    (s.fragment none).name = Print2.fragmentBase s ++ "Other" := by
  refine ⟨Print2.ObjectStack.name_eq_chain s, rfl, rfl, ?_, ?_⟩
  · show (Print2.ObjectStack.mk (some c) s.field s.parent true []).name = _
    rw [Print2.ObjectStack.name.eq_def]
    simp [Print2.fragmentBase]
  · show (Print2.ObjectStack.mk none s.field s.parent true []).name = _
    rw [Print2.ObjectStack.name.eq_def]
    simp [Print2.fragmentBase]

theorem foldl_importType_relativePath (reqs : List String) (fc : FileContext) :
    (reqs.foldl FileContext.importType fc).relativePath = fc.relativePath := by
  induction reqs generalizing fc with
  | nil => rfl
  | cons a l ih =>
    rw [List.foldl_cons, ih]
    rfl

theorem foldl_importType_mem (reqs : List String) (fc : FileContext)
    (x : String) :
    x ∈ (reqs.foldl FileContext.importType fc).importedTypes ↔
      x ∈ fc.importedTypes ∨ x ∈ reqs := by
  induction reqs generalizing fc with
  | nil => simp
  | cons a l ih =>
    rw [List.foldl_cons, ih]
    show x ∈ addImport fc.importedTypes a ∨ _ ↔ _
    rw [mem_addImport]
    simp only [List.mem_cons]
    tauto

theorem foldl_importType_nodup (reqs : List String) (fc : FileContext)
    (h : fc.importedTypes.Nodup) :
    (reqs.foldl FileContext.importType fc).importedTypes.Nodup := by
  induction reqs generalizing fc with
  | nil => exact h
  | cons a l ih =>
    rw [List.foldl_cons]
    exact ih _ (addImport_nodup _ _ h)

/-- C8 counterexample: importing `Zebra` and then `Apple` yields the
specifier list `["Zebra", "Apple"]` — JS `Set` iteration order is insertion
order, so the emitted specifiers are in first-reference order, not sorted
(`"Apple" < "Zebra"` yet `Apple` comes last). -/
theorem c8_counterexample :
    (FileContext.importType (FileContext.importType ⟨"../types.ts", []⟩ "Zebra")
        "Apple").schemaImports =
      some ⟨["Zebra", "Apple"], "../types"⟩ ∧
    ("Apple" : String) < "Zebra" ∧
    ["Zebra", "Apple"] ≠ ["Apple", "Zebra"] := by
  refine ⟨?_, ?_, by decide⟩
  · simp [FileContext.importType, addImport, FileContext.schemaImports,
      importPath, jsStartsWith, jsEndsWith, jsDropRight,
      List.isPrefixOf, List.isSuffixOf, List.take]
  · rw [String.lt_iff_toList_lt]
    decide

/-- C8 amended: for any sequence of referenced type names, the emitted import
statement lists each referenced name exactly once (deduplicated, in
first-reference order rather than sorted), its module path is the
normalized relative path to the schema-types artifact, and the statement
is emitted exactly when at least one type was referenced. -/
theorem c8_schema_imports (reqs : List String) (relPath : String)
    (fc : FileContext)
    (hfc : fc = reqs.foldl FileContext.importType ⟨relPath, []⟩) :
    fc.importedTypes.Nodup ∧
    (∀ x, x ∈ fc.importedTypes ↔ x ∈ reqs) ∧
    (fc.importedTypes ≠ [] →
      fc.schemaImports = some ⟨fc.importedTypes, importPath relPath⟩) ∧
    (fc.importedTypes = [] → fc.schemaImports = none) ∧
    (reqs = [] → fc.schemaImports = none) := by
  subst hfc
  refine ⟨foldl_importType_nodup reqs _ List.nodup_nil, ?_, ?_, ?_, ?_⟩
  · intro x
    rw [foldl_importType_mem]
    simp
  · intro hne
    unfold FileContext.schemaImports
    rw [if_pos (List.length_pos.mpr hne)]
    rw [foldl_importType_relativePath]
  · intro hz
    unfold FileContext.schemaImports
    rw [if_neg]
    rw [hz]
    simp
  · intro hz
    subst hz
    unfold FileContext.schemaImports
    rw [if_neg]
    simp

theorem c8_witness :
    (["Zebra", "Apple", "Zebra"].foldl FileContext.importType
        ⟨"../types.ts", []⟩ =
      ["Zebra", "Apple", "Zebra"].foldl FileContext.importType
        ⟨"../types.ts", []⟩) ∧
    ((["Zebra", "Apple", "Zebra"].foldl FileContext.importType
        ⟨"../types.ts", []⟩).importedTypes.Nodup ∧
     (∀ x, x ∈ (["Zebra", "Apple", "Zebra"].foldl FileContext.importType
        ⟨"../types.ts", []⟩).importedTypes ↔ x ∈ ["Zebra", "Apple", "Zebra"]) ∧
     ((["Zebra", "Apple", "Zebra"].foldl FileContext.importType
        ⟨"../types.ts", []⟩).importedTypes ≠ [] →
      (["Zebra", "Apple", "Zebra"].foldl FileContext.importType
        ⟨"../types.ts", []⟩).schemaImports =
        some ⟨(["Zebra", "Apple", "Zebra"].foldl FileContext.importType
          ⟨"../types.ts", []⟩).importedTypes, importPath "../types.ts"⟩) ∧
     ((["Zebra", "Apple", "Zebra"].foldl FileContext.importType
        ⟨"../types.ts", []⟩).importedTypes = [] →
      (["Zebra", "Apple", "Zebra"].foldl FileContext.importType
        ⟨"../types.ts", []⟩).schemaImports = none) ∧
     (["Zebra", "Apple", "Zebra"] = ([] : List String) →
      (["Zebra", "Apple", "Zebra"].foldl FileContext.importType
        ⟨"../types.ts", []⟩).schemaImports = none)) :=
  ⟨rfl, c8_schema_imports ["Zebra", "Apple", "Zebra"] "../types.ts" _ rfl⟩

theorem importPath_dotSlash (r : String) (h : jsStartsWith r ".." = false) :
    jsStartsWith (importPath r) "./" = true := by
  unfold importPath
  simp only [h, Bool.false_eq_true, if_false]
  by_cases he : jsEndsWith ("./" ++ r) ".ts" = true
  · rw [if_pos he]
    have hsuf : (".ts" : String).data <:+ ("./" ++ r).data := by
      simpa [jsEndsWith, List.isSuffixOf_iff_suffix] using he
    obtain ⟨tl, htl⟩ := hsuf
    have hdata : (jsDropRight ("./" ++ r) 3).data = tl := by
      show ("./" ++ r).data.take (("./" ++ r).data.length - 3) = tl
      rw [← htl]
      have hlen : (tl ++ (".ts" : String).data).length - 3 = tl.length := by
        simp
      rw [hlen, List.take_left]
    rw [String.data_append] at htl
    have hpat : ("./" : String).data = ['.', '/'] := rfl
    have hts : (".ts" : String).data = ['.', 't', 's'] := rfl
    rw [hpat, hts] at htl
    show ("./" : String).data.isPrefixOf (jsDropRight ("./" ++ r) 3).data = true
    rw [hdata, hpat]
    match tl, htl with
    | [], htl => simp at htl
    | [c1], htl => simp at htl
    | c1 :: c2 :: tl2, htl =>
      obtain ⟨h1, h2, _⟩ := by simpa using htl
      subst h1; subst h2
      simp [List.isPrefixOf]
  · rw [if_neg he]
    simp [jsStartsWith, String.data_append, List.isPrefixOf_iff_prefix]

/-- C10: the emitted import specifier is the externally computed relative
path — returned as-is when it starts with `..` and prefixed with `./`
otherwise (so the result then always starts with `./`) — with one trailing
`.ts` extension stripped from the prefixed result. -/
theorem c10_import_path (r p : String) :
    (jsStartsWith r ".." = true →
      importPath r = if jsEndsWith r ".ts" then jsDropRight r 3 else r) ∧
    (jsStartsWith r ".." = false →
      importPath r =
        (if jsEndsWith ("./" ++ r) ".ts" then jsDropRight ("./" ++ r) 3
         else "./" ++ r) ∧
      jsStartsWith (importPath r) "./" = true) ∧
    (jsStartsWith (p ++ ".ts") ".." = true → importPath (p ++ ".ts") = p) ∧
    (jsStartsWith (p ++ ".ts") ".." = false →
      importPath (p ++ ".ts") = "./" ++ p) := by
  have hts3 : (".ts" : String).length = 3 := rfl
  refine ⟨?_, fun h => ⟨?_, importPath_dotSlash r h⟩, ?_, ?_⟩
  · intro h
    unfold importPath
    simp only [h, if_true]
  · unfold importPath
    simp only [h, Bool.false_eq_true, if_false]
  · intro h
    unfold importPath
    simp only [h, if_true]
    rw [if_pos (jsEndsWith_append p ".ts")]
    have hd := jsDropRight_append p ".ts"
    rw [hts3] at hd
    exact hd
  · intro h
    unfold importPath
    simp only [h, Bool.false_eq_true, if_false]
    have hassoc : ("./" : String) ++ (p ++ ".ts") = ("./" ++ p) ++ ".ts" :=
      (String.append_assoc _ _ _).symm
    rw [hassoc]
    rw [if_pos (jsEndsWith_append ("./" ++ p) ".ts")]
    have hd := jsDropRight_append ("./" ++ p) ".ts"
    rw [hts3] at hd
    exact hd

theorem c10_witness :
    jsStartsWith ("../schema.ts" : String) ".." = true ∧
    jsStartsWith ("types/schema.ts" : String) ".." = false ∧
    jsStartsWith (("../schema" : String) ++ ".ts") ".." = true ∧
    jsStartsWith (("types/schema" : String) ++ ".ts") ".." = false ∧
    importPath ("../schema" ++ ".ts") = "../schema" ∧
    importPath ("types/schema" ++ ".ts") = "./" ++ "types/schema" ∧
    jsStartsWith (importPath "types/schema.ts") "./" = true :=
  ⟨by decide, by decide, by decide, by decide,
   (c10_import_path "../schema.ts" "../schema").2.2.1 (by decide),
   (c10_import_path "types/schema.ts" "types/schema").2.2.2 (by decide),
   ((c10_import_path "types/schema.ts" "types/schema").2.1 (by decide)).2⟩

end GraphQLTsDefs
